import Mathlib

/-!
Shallow embedding of the Lumina-Backend session store (src/app/main.py and
src/app/auth.py) together with proofs of the specified properties of the
session lifecycle, eviction, sanitization and identity resolution.

Conventions of the embedding:
* Python strings are `String`, epoch-millisecond timestamps are `Nat`,
  Python `int` values that may be negative (the `maxSessions` bound) are `Int`.
* The relevant filesystem state is an explicit `FS` record: the parsed
  `sessions_index.json` document, the set of existing session directories
  (named by their sanitized segment), and the `state.json` blobs keyed by the
  sanitized session-directory name.  All operations are state-passing pure
  functions.
* JSON request values are modelled by `JVal`; Python truthiness and the
  `int(...)` coercion are modelled explicitly.
-/

namespace Lumina

/-! ### Sanitization (`_safe`, main.py line 14-15)

`re.sub(r"[^a-zA-Z0-9._-]+", "_", (s or "").strip())`: the input is first
stripped of leading/trailing whitespace, then every maximal run of characters
outside `[A-Za-z0-9._-]` is replaced by a single underscore. -/

/-- Characters stripped by Python `str.strip()` (the ASCII whitespace set;
exotic Unicode space characters are not modelled). -/
def pyIsSpace (c : Char) : Bool :=
  c = ' ' || c = '\t' || c = '\n' || c = '\r' || c = '\x0b' || c = '\x0c'

/-- Membership in the character class `[a-zA-Z0-9._-]` of the regex. -/
def isSafeChar (c : Char) : Bool :=
  ('a' ≤ c && c ≤ 'z') || ('A' ≤ c && c ≤ 'Z') || ('0' ≤ c && c ≤ '9') ||
    c = '.' || c = '_' || c = '-'

/-- Python `str.strip()` on a character list. -/
def pyStrip (l : List Char) : List Char :=
  ((l.dropWhile pyIsSpace).reverse.dropWhile pyIsSpace).reverse

/-- `re.sub(r"[^a-zA-Z0-9._-]+", "_", ·)`: each maximal run of characters
outside the class becomes one `'_'`.  The boolean flag records whether the
previous character was part of an unsafe run. -/
def collapseUnsafe (prevUnsafe : Bool) : List Char → List Char
  | [] => []
  | c :: rest =>
    if isSafeChar c then c :: collapseUnsafe false rest
    else if prevUnsafe then collapseUnsafe true rest
    else '_' :: collapseUnsafe true rest

/-- `_safe` from main.py.  (`s or ""` is the identity on actual strings:
for `s = ""` it yields `""` again.) -/
def _safe (s : String) : String :=
  ⟨collapseUnsafe false (pyStrip s.data)⟩

/-- Python `x or d` for an optional string (`None` and `""` are falsy). -/
def pyOr (v : Option String) (d : String) : String :=
  match v with
  | none => d
  | some s => if s = "" then d else s

/-! ### JSON request values and Python coercions -/

/-- A JSON value as it appears in a request body. -/
inductive JVal where
  | null : JVal
  | bool : Bool → JVal
  | num : Int → JVal
  | str : String → JVal
  | arr : List JVal → JVal
  | obj : List (String × JVal) → JVal

/-- Python truthiness of a JSON value. -/
def JVal.truthy : JVal → Bool
  | .null => false
  | .bool b => b
  | .num n => n != 0
  | .str s => s != ""
  | .arr xs => !xs.isEmpty
  | .obj kvs => !kvs.isEmpty

/-- Python `int(...)` applied to a JSON value; `none` models a raised
`TypeError`/`ValueError` (which fails the request). -/
def pyIntOf : JVal → Option Int
  | .num n => some n
  | .bool b => some (if b then 1 else 0)
  | .str s => s.toInt?
  | _ => none

/-! ### Data model -/

/-- One record of `sessions_index.json` (main.py line 141). -/
structure SessionRecord where
  id : String
  name : String
  createdAt : Nat
  lastUsedAt : Nat
deriving DecidableEq, Repr

/-- The filesystem state relevant to one `(user, app)` namespace:
the parsed index document, the existing session directories (by sanitized
directory name) and the `state.json` blobs (by sanitized directory name). -/
structure FS where
  index : List SessionRecord
  dirExists : List String
  stateFiles : List (String × JVal)

/-- Read a `state.json` blob from the modelled filesystem. -/
def lookupState (files : List (String × JVal)) (d : String) : Option JVal :=
  (files.find? (fun kv => kv.1 == d)).map Prod.snd

/-- `MAX_SESSIONS_DEFAULT = int(os.getenv("LUMINA_MAX_SESSIONS", "500"))`
(main.py line 12), at its default value. -/
def MAX_SESSIONS_DEFAULT : Int := 500

/-- `int(payload.get("maxSessions") or MAX_SESSIONS_DEFAULT)`
(main.py line 137): a missing or falsy value falls back to the default;
the surviving value goes through Python `int(...)`. -/
def effectiveMaxSessions (v : Option JVal) : Option Int :=
  match v with
  | none => some MAX_SESSIONS_DEFAULT
  | some x => if x.truthy then pyIntOf x else some MAX_SESSIONS_DEFAULT

/-! ### Eviction (`enforce_limit`, main.py lines 55-72) -/

/-- Python slice `l[:-m]` for an arbitrary `int` m (note `l[:-0] = l[:0] = []`,
and for negative m the slice is `l[:(-m)]`). -/
def pySliceDropLast (l : List α) (m : Int) : List α :=
  if 0 < m then l.take (l.length - m.toNat) else l.take (-m).toNat

/-- Python slice `l[-m:]` for an arbitrary `int` m (note `l[-0:] = l[0:] = l`,
and for negative m the slice is `l[(-m):]`). -/
def pySliceTakeLast (l : List α) (m : Int) : List α :=
  if 0 < m then l.drop (l.length - m.toNat) else l.drop (-m).toNat

/-- Sort key of `sessions.sort(key=lambda s: s.get("lastUsedAt", 0))`:
Python `list.sort` is a stable ascending sort, i.e. `mergeSort` with this
comparison. -/
def lastUsedLe (a b : SessionRecord) : Bool :=
  decide (a.lastUsedAt ≤ b.lastUsedAt)

/-- Comparison of `sessions.sort(key=..., reverse=True)`: a stable descending
sort, i.e. `mergeSort` with the reversed comparison. -/
def lastUsedGe (a b : SessionRecord) : Bool :=
  decide (b.lastUsedAt ≤ a.lastUsedAt)

/-- Effect of the deletion loop of `enforce_limit` (lines 63-71) for one
removed record: `session_dir` first creates the directory, then every entry
below it (including `state.json`) is deleted and the directory removed.
Net effect: the sanitized directory and its state blob are gone. -/
def removeSessionDir (fs : FS) (sid : String) : FS :=
  let d := _safe sid
  { fs with
    dirExists := (d :: fs.dirExists).filter (fun x => x != d)
    stateFiles := fs.stateFiles.filter (fun kv => kv.1 != d) }

/-- `enforce_limit(user_id, app, max_sessions)` (main.py lines 55-72). -/
def enforce_limit (fs : FS) (max_sessions : Int) : FS :=
  if (fs.index.length : Int) ≤ max_sessions then fs
  else
    let sorted := fs.index.mergeSort lastUsedLe
    let to_remove := pySliceDropLast sorted max_sessions
    let keep := pySliceTakeLast sorted max_sessions
    let fs1 := to_remove.foldl (fun acc s => removeSessionDir acc s.id) fs
    { fs1 with index := keep }

/-! ### HTTP operations (state effects only; main.py lines 124-183) -/

/-- `GET /api/{app}/sessions` (lines 124-129): load the index and return it
stable-sorted descending by `lastUsedAt`.  Nothing is written back. -/
def api_list_sessions (fs : FS) : FS × List SessionRecord :=
  (fs, fs.index.mergeSort lastUsedGe)

/-- `POST /api/{app}/sessions` (lines 131-146).  `idOpt`/`nameOpt`/`maxOpt`
are the request-body fields, `tid` the `now_ms()` call used for the default
id, `now` the `now_ms()` call stored in the record.  `none` models a request
failing inside `int(...)`. -/
def api_create_session (fs : FS) (idOpt nameOpt : Option String)
    (maxOpt : Option JVal) (tid now : Nat) : Option (FS × SessionRecord) :=
  match effectiveMaxSessions maxOpt with
  | none => none
  | some max_sessions =>
    let sid := _safe (pyOr idOpt (toString tid))
    let name := pyOr nameOpt sid
    let meta : SessionRecord := ⟨sid, name, now, now⟩
    let sessions := fs.index.filter (fun s => s.id != sid) ++ [meta]
    let fs1 : FS := { fs with index := sessions }
    some (enforce_limit fs1 max_sessions, meta)

/-- `GET /api/{app}/sessions/{session_id}/state` (lines 148-152):
`session_dir` creates the directory as a side effect, then
`load_json(sdir / "state.json", {})` returns the blob or the empty object. -/
def api_get_state (fs : FS) (session_id : String) : FS × JVal :=
  let d := _safe session_id
  let fs0 : FS := { fs with dirExists := fs.dirExists.insert d }
  (fs0, (lookupState fs0.stateFiles d).getD (JVal.obj []))

/-- `PUT /api/{app}/sessions/{session_id}/state` (lines 154-168): create the
directory, overwrite `state.json` with the body, then bump `lastUsedAt` of
every index record whose `id` equals the *raw* `session_id` and save. -/
def api_put_state (fs : FS) (session_id : String) (body : JVal) (now : Nat) :
    FS :=
  let d := _safe session_id
  let fs0 : FS := { fs with dirExists := fs.dirExists.insert d }
  let fs1 : FS :=
    { fs0 with stateFiles := (d, body) :: fs0.stateFiles.filter (fun kv => kv.1 != d) }
  let sessions := fs1.index.map (fun s =>
    if s.id = session_id then { s with lastUsedAt := now } else s)
  { fs1 with index := sessions }

/-- `DELETE /api/{app}/sessions/{session_id}` (lines 170-183): `session_dir`
creates the directory, the tree below it is removed bottom-up together with
the directory, and every index record whose `id` equals the *raw*
`session_id` is dropped. -/
def api_delete_session (fs : FS) (session_id : String) : FS :=
  let d := _safe session_id
  { index := fs.index.filter (fun s => s.id != session_id)
    dirExists := (fs.dirExists.insert d).filter (fun x => x != d)
    stateFiles := fs.stateFiles.filter (fun kv => kv.1 != d) }

/-! ### Identity resolution (`get_user_id`, auth.py lines 9-39) -/

/-- The request headers consulted by `get_user_id`; `none` is an absent
header. -/
structure AuthRequest where
  xUsername : Option String
  xApiKey : Option String
  cfAccessEmail : Option String

/-- The environment configuration consulted by `get_user_id`. -/
structure AuthConfig where
  luminaApiKey : Option String
  luminaDevEmail : Option String

/-- Python truthiness of `headers.get(...)` / `os.getenv(...)`:
absent or empty is falsy. -/
def truthyOpt : Option String → Bool
  | none => false
  | some s => s != ""

/-- `get_user_id(request)` from auth.py.  `hash` stands for
`_hash_username` (a sha256 hex digest, opaque to the control flow, hence a
parameter); the error value carries the HTTP status and detail string. -/
def get_user_id (hash : String → String) (cfg : AuthConfig)
    (req : AuthRequest) : Except (Nat × String) String :=
  if truthyOpt req.xUsername then .ok (hash (req.xUsername.getD ""))
  else if truthyOpt cfg.luminaApiKey && truthyOpt req.xApiKey
      && req.xApiKey == cfg.luminaApiKey then .ok (hash "api-key-user")
  else if truthyOpt req.cfAccessEmail then .ok (hash (req.cfAccessEmail.getD ""))
  else if truthyOpt cfg.luminaDevEmail then .ok (hash (cfg.luminaDevEmail.getD ""))
  else .error (401, "Unauthorized: Missing X-Username header")

/-- Modelled from the spec: the priority list of credentials
("an explicit caller-supplied identity header, a shared-secret API key
header, a platform-injected authenticated-email header, and a process-wide
development fallback identity"), returning the first credential present, or
`none` when no recognized credential is present.  Stated from the spec's
words for comparison with `get_user_id`. -/
def specFirstCredential (cfg : AuthConfig) (req : AuthRequest) :
    Option String :=
  if truthyOpt req.xUsername then some (req.xUsername.getD "")
  else if truthyOpt cfg.luminaApiKey && truthyOpt req.xApiKey
      && req.xApiKey == cfg.luminaApiKey then some "api-key-user"
  else if truthyOpt req.cfAccessEmail then some (req.cfAccessEmail.getD "")
  else if truthyOpt cfg.luminaDevEmail then some (cfg.luminaDevEmail.getD "")
  else none

/-! ### Create sequences (for the eviction invariant) -/

/-- The sanitized session id produced by a Create call with request id field
`p.1` (possibly empty, in which case `f"{now_ms()}"` is used) at time `p.2`. -/
def sidOf (p : String × Nat) : String :=
  _safe (pyOr (some p.1) (toString p.2))

/-- The record produced by a Create call `(rawId, t)` with no `name` field:
the name defaults to the sanitized id. -/
def toRec (p : String × Nat) : SessionRecord :=
  ⟨sidOf p, sidOf p, p.2, p.2⟩

/-- One Create call of a sequence, passing `maxSessions = k` and using the
call time both for the id default and the record timestamps. -/
def createStep (k : Nat) (acc : FS) (p : String × Nat) : FS :=
  match api_create_session acc (some p.1) none (some (JVal.num (k : Int))) p.2 p.2 with
  | some r => r.1
  | none => acc

/-- A sequence of Create calls, each passing `maxSessions = k`. -/
def runCreates (fs : FS) (k : Nat) (steps : List (String × Nat)) : FS :=
  steps.foldl (createStep k) fs

/-! ### Lemmas about sanitization -/

theorem pyIsSpace_not_safe (c : Char) (h : pyIsSpace c = true) :
    isSafeChar c = false := by
  simp only [pyIsSpace, Bool.or_eq_true, decide_eq_true_eq] at h
  rcases h with ((((h | h) | h) | h) | h) | h <;> subst h <;> decide

theorem isSafeChar_not_space (c : Char) (h : isSafeChar c = true) :
    pyIsSpace c = false := by
  cases hsp : pyIsSpace c with
  | false => rfl
  | true => rw [pyIsSpace_not_safe c hsp] at h; exact absurd h (by simp)

theorem collapseUnsafe_chars (b : Bool) (l : List Char) :
    ∀ c ∈ collapseUnsafe b l, isSafeChar c := by
  induction l generalizing b with
  | nil => intro c hc; simp [collapseUnsafe] at hc
  | cons c rest ih =>
    intro d hd
    by_cases hs : isSafeChar c
    · rw [collapseUnsafe, if_pos hs] at hd
      rcases List.mem_cons.mp hd with rfl | hd
      · exact hs
      · exact ih false d hd
    · rw [collapseUnsafe, if_neg hs] at hd
      cases b with
      | true => exact ih true d (by simpa using hd)
      | false =>
        rcases List.mem_cons.mp (by simpa using hd) with rfl | hd'
        · decide
        · exact ih true d hd'

theorem collapseUnsafe_false_nil_iff (l : List Char) :
    collapseUnsafe false l = [] ↔ l = [] := by
  cases l with
  | nil => simp [collapseUnsafe]
  | cons c rest =>
    simp only [collapseUnsafe]
    constructor
    · intro h
      by_cases hs : isSafeChar c
      · rw [if_pos hs] at h; exact absurd h (by simp)
      · rw [if_neg hs] at h; simp at h
    · intro h; exact absurd h (by simp)

theorem collapseUnsafe_of_safe (l : List Char) (h : ∀ c ∈ l, isSafeChar c) :
    collapseUnsafe false l = l := by
  induction l with
  | nil => rfl
  | cons c rest ih =>
    have hc : isSafeChar c := h c (List.mem_cons_self c rest)
    rw [collapseUnsafe, if_pos hc, ih (fun d hd => h d (List.mem_cons_of_mem c hd))]

theorem dropWhile_pyIsSpace_of_safe (l : List Char) (h : ∀ c ∈ l, isSafeChar c) :
    l.dropWhile pyIsSpace = l := by
  cases l with
  | nil => rfl
  | cons c rest =>
    rw [List.dropWhile_cons,
      if_neg (by simp [isSafeChar_not_space c (h c (List.mem_cons_self c rest))])]

theorem pyStrip_of_safe (l : List Char) (h : ∀ c ∈ l, isSafeChar c) :
    pyStrip l = l := by
  unfold pyStrip
  rw [dropWhile_pyIsSpace_of_safe l h,
    dropWhile_pyIsSpace_of_safe l.reverse (fun c hc => h c (List.mem_reverse.mp hc)),
    List.reverse_reverse]

theorem safe_string_chars (s : String) : ∀ c ∈ (_safe s).data, isSafeChar c :=
  collapseUnsafe_chars false (pyStrip s.data)

theorem _safe_idem (s : String) : _safe (_safe s) = _safe s := by
  have h := safe_string_chars s
  show (⟨collapseUnsafe false (pyStrip (_safe s).data)⟩ : String) = _safe s
  rw [pyStrip_of_safe _ h, collapseUnsafe_of_safe _ h]

/-! ### Small list lemmas -/

theorem map_eq_self_of_mem {α : Type} (f : α → α) (l : List α)
    (h : ∀ a ∈ l, f a = a) : l.map f = l := by
  induction l with
  | nil => rfl
  | cons a l ih =>
    rw [List.map_cons, h a (List.mem_cons_self a l),
      ih (fun b hb => h b (List.mem_cons_of_mem a hb))]

theorem filter_map_invariant {α : Type} (f : α → α) (p : α → Bool) (l : List α)
    (h : ∀ a ∈ l, (p a = false ∧ p (f a) = false) ∨ f a = a) :
    (l.map f).filter p = l.filter p := by
  induction l with
  | nil => rfl
  | cons a l ih =>
    have ht := ih (fun b hb => h b (List.mem_cons_of_mem a hb))
    rcases h a (List.mem_cons_self a l) with ⟨h1, h2⟩ | h1
    · simp only [List.map_cons, List.filter_cons, h1, h2]
      exact ht
    · simp only [List.map_cons, List.filter_cons, h1]
      cases hp : p a <;> simp [ht]

theorem lastUsedGe_trans (a b c : SessionRecord) (h1 : lastUsedGe a b)
    (h2 : lastUsedGe b c) : lastUsedGe a c := by
  simp only [lastUsedGe, decide_eq_true_eq] at h1 h2 ⊢
  omega

theorem lastUsedGe_total (a b : SessionRecord) : lastUsedGe a b || lastUsedGe b a := by
  simp only [lastUsedGe, Bool.or_eq_true, decide_eq_true_eq]
  omega

theorem lastUsedLe_trans (a b c : SessionRecord) (h1 : lastUsedLe a b)
    (h2 : lastUsedLe b c) : lastUsedLe a c := by
  simp only [lastUsedLe, decide_eq_true_eq] at h1 h2 ⊢
  omega

theorem lastUsedLe_total (a b : SessionRecord) : lastUsedLe a b || lastUsedLe b a := by
  simp only [lastUsedLe, Bool.or_eq_true, decide_eq_true_eq]
  omega

/-! ### Lemmas about eviction -/

/-- Python's `list.sort` is stable: for every key value `t`, the subsequence
of records with `lastUsedAt = t` is unchanged by the sort. -/
theorem mergeSort_filter_key (l : List SessionRecord) (t : Nat) :
    (l.mergeSort lastUsedLe).filter (fun s => s.lastUsedAt == t)
      = l.filter (fun s => s.lastUsedAt == t) := by
  set p : SessionRecord → Bool := fun s => s.lastUsedAt == t with hp
  have hmemp : ∀ a ∈ l.filter p, p a = true := fun a ha => List.of_mem_filter ha
  have hpw : (l.filter p).Pairwise (fun a b => lastUsedLe a b) := by
    rw [List.pairwise_iff_forall_sublist]
    intro a b hsub
    have ha := hmemp a (hsub.subset (List.mem_cons_self a [b]))
    have hb := hmemp b (hsub.subset (List.mem_cons_of_mem a (List.mem_cons_self b [])))
    simp only [hp, beq_iff_eq] at ha hb
    simp [lastUsedLe, ha, hb]
  have hsub : List.Sublist (l.filter p) (l.mergeSort lastUsedLe) :=
    List.sublist_mergeSort lastUsedLe_trans lastUsedLe_total hpw (List.filter_sublist l)
  have hsub2 : List.Sublist (l.filter p) ((l.mergeSort lastUsedLe).filter p) := by
    have := hsub.filter p
    have heq : List.filter (fun a => p a && p a) l = List.filter p l :=
      List.filter_congr (fun a _ => Bool.and_self (p a))
    rwa [List.filter_filter, heq] at this
  have hperm : ((l.mergeSort lastUsedLe).filter p).Perm (l.filter p) :=
    (List.mergeSort_perm l lastUsedLe).filter p
  exact (hsub2.eq_of_length hperm.length_eq.symm).symm

theorem removeSessionDir_index (fs : FS) (y : String) :
    (removeSessionDir fs y).index = fs.index := rfl

theorem removeSessionDir_dirs_not_mem (fs : FS) (y x : String)
    (h : x ∉ fs.dirExists) : x ∉ (removeSessionDir fs y).dirExists := by
  intro hc
  have hc' := List.mem_filter.mp hc
  have hne : x ≠ _safe y := by simpa using hc'.2
  rcases List.mem_cons.mp hc'.1 with h1 | h1
  · exact hne h1
  · exact h h1

theorem removeSessionDir_state_none (fs : FS) (y x : String)
    (h : lookupState fs.stateFiles x = none) :
    lookupState (removeSessionDir fs y).stateFiles x = none := by
  simp only [lookupState, Option.map_eq_none'] at h ⊢
  rw [List.find?_eq_none] at h ⊢
  exact fun kv hkv => h kv (List.mem_of_mem_filter hkv)

theorem removeSessionDir_removes_dirs (fs : FS) (y : String) :
    _safe y ∉ (removeSessionDir fs y).dirExists := by
  simp [removeSessionDir, List.mem_filter]

theorem removeSessionDir_removes_state (fs : FS) (y : String) :
    lookupState (removeSessionDir fs y).stateFiles (_safe y) = none := by
  simp only [removeSessionDir, lookupState, Option.map_eq_none']
  rw [List.find?_eq_none]
  intro kv hkv
  have := List.of_mem_filter hkv
  simp only [bne_iff_ne, ne_eq] at this
  simpa using this

theorem foldl_remove_preserves_dirs (R : List SessionRecord) (fs : FS) (x : String)
    (h : x ∉ fs.dirExists) :
    x ∉ (R.foldl (fun acc s => removeSessionDir acc s.id) fs).dirExists := by
  induction R generalizing fs with
  | nil => exact h
  | cons r R ih => exact ih _ (removeSessionDir_dirs_not_mem _ _ _ h)

theorem foldl_remove_preserves_state (R : List SessionRecord) (fs : FS) (x : String)
    (h : lookupState fs.stateFiles x = none) :
    lookupState (R.foldl (fun acc s => removeSessionDir acc s.id) fs).stateFiles x
      = none := by
  induction R generalizing fs with
  | nil => exact h
  | cons r R ih => exact ih _ (removeSessionDir_state_none _ _ _ h)

theorem foldl_remove_removes_dirs (R : List SessionRecord) (fs : FS)
    (s : SessionRecord) (hs : s ∈ R) :
    _safe s.id ∉ (R.foldl (fun acc u => removeSessionDir acc u.id) fs).dirExists := by
  induction R generalizing fs with
  | nil => cases hs
  | cons r R ih =>
    rcases List.mem_cons.mp hs with rfl | hs
    · exact foldl_remove_preserves_dirs R _ _ (removeSessionDir_removes_dirs fs s.id)
    · exact ih _ hs

theorem foldl_remove_removes_state (R : List SessionRecord) (fs : FS)
    (s : SessionRecord) (hs : s ∈ R) :
    lookupState (R.foldl (fun acc u => removeSessionDir acc u.id) fs).stateFiles
      (_safe s.id) = none := by
  induction R generalizing fs with
  | nil => cases hs
  | cons r R ih =>
    rcases List.mem_cons.mp hs with rfl | hs
    · exact foldl_remove_preserves_state R _ _ (removeSessionDir_removes_state fs s.id)
    · exact ih _ hs

theorem foldl_remove_index (R : List SessionRecord) (fs : FS) :
    (R.foldl (fun acc u => removeSessionDir acc u.id) fs).index = fs.index := by
  induction R generalizing fs with
  | nil => rfl
  | cons r R ih => rw [List.foldl_cons, ih, removeSessionDir_index]

/-- The over-capacity branch of `enforce_limit`, written out. -/
theorem enforce_limit_eq_of_gt (fs : FS) (N : Int)
    (h : ¬ ((fs.index.length : Int) ≤ N)) :
    enforce_limit fs N =
      { ((pySliceDropLast (fs.index.mergeSort lastUsedLe) N).foldl
          (fun acc s => removeSessionDir acc s.id) fs) with
        index := pySliceTakeLast (fs.index.mergeSort lastUsedLe) N } := by
  unfold enforce_limit
  rw [if_neg h]

/-! ### C4: sanitization -/

/-- C4 counterexample: the claim states that empty or all-blank input yields
the one-character string `"_"` and that the result is never empty; in fact
`_safe " "` (and `_safe ""`) is the empty string, because the input is
stripped before substitution and the regex never matches in an empty
string. -/
theorem safe_blank_counterexample :
    _safe " " = "" ∧ _safe "" = "" ∧ ("" : String) ≠ "_" ∧ ("" : String).length = 0 :=
  ⟨rfl, rfl, by decide, rfl⟩

/-- C4 (amended): `_safe` first strips leading/trailing whitespace, then
collapses each maximal run of characters outside `[A-Za-z0-9._-]` into one
underscore; every character of the result lies in the class, the result is
empty exactly when the stripped input is empty (so blank input yields `""`,
not `"_"`), and an already-clean string is returned unchanged. -/
theorem safe_sanitizes (s : String) :
    (∀ c ∈ (_safe s).data, isSafeChar c)
    ∧ (_safe s = "" ↔ pyStrip s.data = [])
    ∧ ((∀ c ∈ s.data, isSafeChar c) → _safe s = s) := by
  refine ⟨safe_string_chars s, ?_, ?_⟩
  · show (⟨collapseUnsafe false (pyStrip s.data)⟩ : String) = "" ↔ _
    rw [String.ext_iff]
    exact collapseUnsafe_false_nil_iff _
  · intro h
    show (⟨collapseUnsafe false (pyStrip s.data)⟩ : String) = s
    rw [pyStrip_of_safe _ h, collapseUnsafe_of_safe _ h]

/-- C4 witness: the amended theorem applied to the clean string `"ab.c"`. -/
theorem safe_sanitizes_witness : _safe "ab.c" = "ab.c" :=
  (safe_sanitizes "ab.c").2.2 (by decide)

/-! ### C7: List -/

/-- C7: `api_list_sessions` returns the records of the index sorted in
descending order of `lastUsedAt`, and performs no mutation: the state it
leaves behind is exactly the state it loaded. -/
theorem list_sessions_spec (fs : FS) :
    (api_list_sessions fs).1 = fs
    ∧ (api_list_sessions fs).2.Pairwise (fun a b => b.lastUsedAt ≤ a.lastUsedAt)
    ∧ (api_list_sessions fs).2.Perm fs.index := by
  refine ⟨rfl, ?_, List.mergeSort_perm _ _⟩
  have h := List.sorted_mergeSort lastUsedGe_trans lastUsedGe_total fs.index
  exact h.imp (fun hab => by
    simpa only [lastUsedGe, decide_eq_true_eq] using hab)

/-! ### C8: identity resolution -/

/-- C8: `get_user_id` returns an identifier derived (through the opaque hash)
from the first credential present in the priority order given by the spec —
caller-supplied identity header, shared-secret API key header,
platform-injected authenticated-email header, process-wide development
fallback — and fails with HTTP 401 exactly when `specFirstCredential` finds
no recognized credential; it never returns an identifier in that case. -/
theorem get_user_id_spec (hash : String → String) (cfg : AuthConfig)
    (req : AuthRequest) :
    get_user_id hash cfg req =
      match specFirstCredential cfg req with
      | some cred => .ok (hash cred)
      | none => .error (401, "Unauthorized: Missing X-Username header") := by
  unfold get_user_id specFirstCredential
  split_ifs <;> rfl

/-! ### C6: GetState never fails -/

/-- C6: `api_get_state` never reports not-found: whenever the state blob is
absent (a session never created through Create included) it returns the empty
JSON object; after a Delete, `api_get_state` for the deleted id returns the
empty JSON object and the id is absent from the List result. -/
theorem get_state_never_not_found (fs : FS) (sid : String) :
    (lookupState fs.stateFiles (_safe sid) = none →
      (api_get_state fs sid).2 = JVal.obj [])
    ∧ (api_get_state (api_delete_session fs sid) sid).2 = JVal.obj []
    ∧ ∀ r ∈ (api_list_sessions (api_delete_session fs sid)).2, r.id ≠ sid := by
  refine ⟨?_, ?_, ?_⟩
  · intro h
    simp only [api_get_state, h]
    rfl
  · have h : lookupState (api_delete_session fs sid).stateFiles (_safe sid) = none := by
      simp only [api_delete_session, lookupState]
      rw [List.find?_eq_none.mpr]
      · rfl
      · intro kv hkv
        have := List.of_mem_filter hkv
        simpa using this
    simp only [api_get_state, h]
    rfl
  · intro r hr
    have hmem : r ∈ (api_delete_session fs sid).index := by
      simpa only [api_list_sessions] using List.mem_mergeSort.mp hr
    simp only [api_delete_session, List.mem_filter, bne_iff_ne, ne_eq,
      decide_eq_true_eq] at hmem
    exact hmem.2

/-- C6 witness: on an empty store (a session id never created), GetState
returns the empty object. -/
theorem get_state_never_not_found_witness :
    (api_get_state ⟨[], [], []⟩ "x").2 = JVal.obj [] :=
  (get_state_never_not_found ⟨[], [], []⟩ "x").1 rfl

/-! ### C5: PutState frame -/

/-- C5: `api_put_state` overwrites the state blob unconditionally; in the
index it sets `lastUsedAt := now` on every record whose id equals the raw
session id, leaves every other record (and every other field) unchanged, and
when no record matches it persists the index exactly as loaded. -/
theorem put_state_frame (fs : FS) (sid : String) (body : JVal) (now : Nat) :
    lookupState (api_put_state fs sid body now).stateFiles (_safe sid) = some body
    ∧ (api_put_state fs sid body now).index.length = fs.index.length
    ∧ (∀ i (h1 : i < fs.index.length)
        (h2 : i < (api_put_state fs sid body now).index.length),
        (api_put_state fs sid body now).index.get ⟨i, h2⟩ =
          (if (fs.index.get ⟨i, h1⟩).id = sid
           then { fs.index.get ⟨i, h1⟩ with lastUsedAt := now }
           else fs.index.get ⟨i, h1⟩))
    ∧ ((∀ s ∈ fs.index, s.id ≠ sid) → (api_put_state fs sid body now).index = fs.index) := by
  refine ⟨?_, by simp [api_put_state], ?_, ?_⟩
  · simp [api_put_state, lookupState, List.find?]
  · intro i h1 h2
    simp [api_put_state, List.get_eq_getElem, List.getElem_map]
  · intro h
    simp only [api_put_state]
    exact map_eq_self_of_mem _ _ (fun s hs => by rw [if_neg (h s hs)])

/-- C5 witness: writing state for an id matching no index record leaves the
index exactly as loaded. -/
theorem put_state_frame_witness :
    (api_put_state ⟨[⟨"b", "b", 1, 1⟩], [], []⟩ "a" JVal.null 7).index
      = [⟨"b", "b", 1, 1⟩] :=
  (put_state_frame ⟨[⟨"b", "b", 1, 1⟩], [], []⟩ "a" JVal.null 7).2.2.2 (by decide)

/-! ### C9: raw id vs. sanitized id -/

/-- C9: when a session id differs from its sanitized form, `api_put_state`
writes the blob under the sanitized directory name yet bumps no index record
carrying the sanitized id (the index match uses the raw id), and
`api_delete_session` removes the sanitized directory while leaving every
index record carrying the sanitized id untouched; when the id equals its
sanitized form, Delete removes the record and the directory of that same
name. -/
theorem sanitized_mismatch_spec (fs : FS) (sid : String) (body : JVal)
    (now : Nat) (h : _safe sid ≠ sid) :
    lookupState (api_put_state fs sid body now).stateFiles (_safe sid) = some body
    ∧ (api_put_state fs sid body now).index.filter (fun s => s.id == _safe sid)
        = fs.index.filter (fun s => s.id == _safe sid)
    ∧ _safe sid ∉ (api_delete_session fs sid).dirExists
    ∧ (api_delete_session fs sid).index.filter (fun s => s.id == _safe sid)
        = fs.index.filter (fun s => s.id == _safe sid)
    ∧ (∀ sid2, _safe sid2 = sid2 →
        (api_delete_session fs sid2).index.filter (fun s => s.id == _safe sid2) = []
        ∧ _safe sid2 ∉ (api_delete_session fs sid2).dirExists) := by
  have hside : sid ≠ _safe sid := fun hc => h hc.symm
  refine ⟨(put_state_frame fs sid body now).1, ?_, ?_, ?_, ?_⟩
  · simp only [api_put_state]
    apply filter_map_invariant
    intro a _
    by_cases ha : a.id = sid
    · left
      rw [if_pos ha]
      exact ⟨by simp [ha, hside], by simp [ha, hside]⟩
    · right
      rw [if_neg ha]
  · simp [api_delete_session, List.mem_filter]
  · simp only [api_delete_session]
    rw [List.filter_filter]
    apply List.filter_congr
    intro a _
    by_cases ha : a.id = _safe sid
    · simp [ha, h]
    · simp [ha]
  · intro sid2 h2
    constructor
    · rw [List.filter_eq_nil_iff]
      intro a ha
      have hmem : a ∈ fs.index ∧ (a.id != sid2) = true := by
        simpa only [api_delete_session, List.mem_filter] using ha
      simp only [bne_iff_ne, ne_eq] at hmem
      simp [h2, hmem.2]
    · simp [api_delete_session, List.mem_filter]

/-- C9 witness: for the id `"a b"` (sanitized to `"a_b"`), PutState writes
the blob under the sanitized directory name. -/
theorem sanitized_mismatch_spec_witness :
    lookupState (api_put_state ⟨[], [], []⟩ "a b" JVal.null 3).stateFiles
      (_safe "a b") = some JVal.null :=
  (sanitized_mismatch_spec ⟨[], [], []⟩ "a b" JVal.null 3 (by decide)).1

/-! ### C1: the eviction contract -/

/-- C1 counterexample: with effective bound N = 0 (reachable through a
request body `maxSessions = "0"`, whose string value is truthy and coerced
by `int(...)` to 0) and a one-record index, the claim demands that all
`count - N = 1` records be removed and the persisted index be empty; but
`sessions[:-0]` is the empty slice and `sessions[-0:]` is the whole list,
so `enforce_limit` removes nothing and keeps the full index. -/
theorem enforce_limit_zero_counterexample :
    ¬ (((⟨[⟨"a", "a", 1, 1⟩], [], []⟩ : FS).index.length : Int) ≤ 0)
    ∧ (enforce_limit ⟨[⟨"a", "a", 1, 1⟩], [], []⟩ 0).index = [⟨"a", "a", 1, 1⟩]
    ∧ [(⟨"a", "a", 1, 1⟩ : SessionRecord)] ≠ [] := by
  refine ⟨by decide, ?_, by decide⟩
  rw [enforce_limit_eq_of_gt _ _ (by decide)]
  show pySliceTakeLast ([(⟨"a", "a", 1, 1⟩ : SessionRecord)].mergeSort lastUsedLe) 0 = _
  rw [List.mergeSort_singleton]
  rfl

/-- C1 (amended): for every bound N ≥ 1 the claimed contract holds: at most
N records is a no-op (index and disk unchanged); otherwise the index is
stable-sorted ascending by `lastUsedAt` (ties keep their prior relative
order: each equal-timestamp subsequence is unchanged), the first
`count - N` records of that sort have their whole session directory
(directory and state blob) deleted, and the persisted index is exactly the
last N records of that sort, in ascending order.  For N = 0 the claim
fails: the Python slice `[:-0]` is empty, nothing is removed, and the whole
re-sorted index is kept (see the counterexample). -/
theorem enforce_limit_contract (fs : FS) (N : Int) (hN : 1 ≤ N) :
    ((fs.index.length : Int) ≤ N → enforce_limit fs N = fs)
    ∧ (N < (fs.index.length : Int) →
        ∃ sorted : List SessionRecord,
          sorted = fs.index.mergeSort lastUsedLe
          ∧ sorted.Pairwise (fun a b => a.lastUsedAt ≤ b.lastUsedAt)
          ∧ sorted.Perm fs.index
          ∧ (∀ t : Nat, sorted.filter (fun s => s.lastUsedAt == t)
              = fs.index.filter (fun s => s.lastUsedAt == t))
          ∧ (enforce_limit fs N).index = sorted.drop (fs.index.length - N.toNat)
          ∧ (enforce_limit fs N).index.length = N.toNat
          ∧ (enforce_limit fs N).index.Pairwise
              (fun a b => a.lastUsedAt ≤ b.lastUsedAt)
          ∧ (∀ s ∈ sorted.take (fs.index.length - N.toNat),
              _safe s.id ∉ (enforce_limit fs N).dirExists
              ∧ lookupState (enforce_limit fs N).stateFiles (_safe s.id) = none)) := by
  constructor
  · intro h
    rw [enforce_limit, if_pos h]
  · intro hgt
    have hnle : ¬ ((fs.index.length : Int) ≤ N) := by omega
    have hlen : (fs.index.mergeSort lastUsedLe).length = fs.index.length :=
      List.length_mergeSort fs.index
    have hNpos : 0 < N := by omega
    have hdk : pySliceDropLast (fs.index.mergeSort lastUsedLe) N
        = (fs.index.mergeSort lastUsedLe).take (fs.index.length - N.toNat) := by
      rw [pySliceDropLast, if_pos hNpos, hlen]
    have hkk : pySliceTakeLast (fs.index.mergeSort lastUsedLe) N
        = (fs.index.mergeSort lastUsedLe).drop (fs.index.length - N.toNat) := by
      rw [pySliceTakeLast, if_pos hNpos, hlen]
    have hidx : (enforce_limit fs N).index
        = (fs.index.mergeSort lastUsedLe).drop (fs.index.length - N.toNat) := by
      rw [enforce_limit_eq_of_gt _ _ hnle]
      exact hkk
    have hsortedPW : (fs.index.mergeSort lastUsedLe).Pairwise
        (fun a b => a.lastUsedAt ≤ b.lastUsedAt) :=
      (List.sorted_mergeSort lastUsedLe_trans lastUsedLe_total fs.index).imp
        (fun hab => by simpa only [lastUsedLe, decide_eq_true_eq] using hab)
    refine ⟨_, rfl, hsortedPW, List.mergeSort_perm _ _,
      fun t => mergeSort_filter_key fs.index t, hidx, ?_, ?_, ?_⟩
    · rw [hidx, List.length_drop, hlen]
      omega
    · rw [hidx]
      exact hsortedPW.sublist (List.drop_sublist _ _)
    · intro s hs
      have hdirs : (enforce_limit fs N).dirExists
          = ((pySliceDropLast (fs.index.mergeSort lastUsedLe) N).foldl
              (fun acc u => removeSessionDir acc u.id) fs).dirExists := by
        rw [enforce_limit_eq_of_gt _ _ hnle]
      have hstate : (enforce_limit fs N).stateFiles
          = ((pySliceDropLast (fs.index.mergeSort lastUsedLe) N).foldl
              (fun acc u => removeSessionDir acc u.id) fs).stateFiles := by
        rw [enforce_limit_eq_of_gt _ _ hnle]
      rw [← hdk] at hs
      constructor
      · rw [hdirs]
        exact foldl_remove_removes_dirs _ _ _ hs
      · rw [lookupState, hstate, ← lookupState]
        exact foldl_remove_removes_state _ _ _ hs

/-- C1 witness: the amended contract applied to a one-record index with
bound 1 (the no-op case). -/
theorem enforce_limit_contract_witness :
    enforce_limit (⟨[⟨"a", "a", 5, 5⟩], [], []⟩ : FS) 1
      = ⟨[⟨"a", "a", 5, 5⟩], [], []⟩ :=
  (enforce_limit_contract ⟨[⟨"a", "a", 5, 5⟩], [], []⟩ 1 (by decide)).1 (by decide)

/-! ### C3: re-creation and createdAt -/

/-- C3 counterexample: id `"s1"` was created at time 1 (`createdAt = 1`);
re-creating it at time 5 yields an index whose single record has
`createdAt = 5` — the upsert builds a fresh record and does not preserve
the existing `createdAt`. -/
theorem create_resets_createdAt :
    (api_create_session ⟨[⟨"s1", "s1", 1, 1⟩], [], []⟩ (some "s1") none none 5 5).map
        (fun r => r.1.index.map SessionRecord.createdAt) = some [5]
    ∧ (5 : Nat) ≠ 1 :=
  ⟨rfl, by decide⟩

/-- C3 (amended): re-creating a session with an existing id is an upsert
that leaves exactly one record with that id; it updates `name` and
`lastUsedAt`, but it also resets `createdAt` to now — `createdAt` is not
preserved from the first creation.  (Stated for a Create that stays under
the default cap, so eviction is a no-op.) -/
theorem create_upsert_spec (fs : FS) (rid : String) (nameOpt : Option String)
    (tid now : Nat) (hrid : rid ≠ "")
    (hlen : (fs.index.length : Int) < MAX_SESSIONS_DEFAULT) :
    api_create_session fs (some rid) nameOpt none tid now =
      some ({ fs with index :=
                (fs.index.filter (fun s => s.id != _safe rid)
                  ++ [⟨_safe rid, pyOr nameOpt (_safe rid), now, now⟩]) },
            (⟨_safe rid, pyOr nameOpt (_safe rid), now, now⟩ : SessionRecord))
    ∧ (fs.index.filter (fun s => s.id != _safe rid)
        ++ [(⟨_safe rid, pyOr nameOpt (_safe rid), now, now⟩ : SessionRecord)]).countP
          (fun s => s.id == _safe rid) = 1 := by
  have hsid : pyOr (some rid) (toString tid) = rid := by
    simp [pyOr, hrid]
  constructor
  · have hfl := List.length_filter_le (fun s => s.id != _safe rid) fs.index
    simp only [api_create_session, effectiveMaxSessions, hsid]
    rw [enforce_limit, if_pos (by simp [List.length_append]; omega)]
  · rw [List.countP_append]
    have h0 : (fs.index.filter (fun s => s.id != _safe rid)).countP
        (fun s => s.id == _safe rid) = 0 := by
      rw [List.countP_eq_zero]
      intro a ha
      have := List.of_mem_filter ha
      simpa using this
    rw [h0]
    simp

/-- C3 witness: re-creating `"s1"` (created at time 1 with name "old") at
time 5 with name "n2" yields exactly the fresh record. -/
theorem create_upsert_spec_witness :
    api_create_session ⟨[⟨"s1", "old", 1, 1⟩], [], []⟩ (some "s1") (some "n2")
        none 4 5 =
      some (⟨[⟨"s1", "n2", 5, 5⟩], [], []⟩, ⟨"s1", "n2", 5, 5⟩) := by
  have h := (create_upsert_spec ⟨[⟨"s1", "old", 1, 1⟩], [], []⟩ "s1" (some "n2")
    4 5 (by decide) (by decide)).1
  rw [h]
  rfl

/-! ### C10: falsy and zero maxSessions -/

/-- Eviction with a nonnegative bound never empties a nonempty index:
with bound 0 the slice `[-0:]` keeps everything, and with a positive bound
the keep suffix has positive length. -/
theorem enforce_limit_keeps_nonempty (fs : FS) (m : Int) (hm : 0 ≤ m)
    (h : fs.index ≠ []) : (enforce_limit fs m).index ≠ [] := by
  by_cases hle : (fs.index.length : Int) ≤ m
  · rw [enforce_limit, if_pos hle]
    exact h
  · rw [enforce_limit_eq_of_gt _ _ hle]
    show pySliceTakeLast (fs.index.mergeSort lastUsedLe) m ≠ []
    have hlen : (fs.index.mergeSort lastUsedLe).length = fs.index.length :=
      List.length_mergeSort fs.index
    have hpos : 0 < fs.index.length := List.length_pos.mpr h
    unfold pySliceTakeLast
    by_cases hm0 : 0 < m
    · rw [if_pos hm0]
      intro hnil
      have hlen0 := congrArg List.length hnil
      rw [List.length_drop, hlen] at hlen0
      simp only [List.length_nil] at hlen0
      omega
    · rw [if_neg hm0]
      have hz : (-m).toNat = 0 := by omega
      rw [hz, List.drop_zero]
      intro hnil
      have := congrArg List.length hnil
      rw [hlen] at this
      simp only [List.length_nil] at this
      omega

/-- C10 counterexample: the claim entails that no Create request can leave
the index with zero sessions; but a body value `maxSessions = -1` is truthy
(so not replaced by the default), and eviction with bound -1 takes
`sessions[:-(-1)] = sessions[:1]` as the removal slice and keeps
`sessions[1:]`, deleting every record including the one just created. -/
theorem create_negative_max_counterexample :
    (api_create_session ⟨[], [], []⟩ (some "a") none (some (JVal.num (-1))) 1 1).map
      (fun r => r.1.index) = some [] := by
  have hmax : effectiveMaxSessions (some (JVal.num (-1))) = some (-1) := rfl
  simp only [api_create_session, hmax, Option.map_some']
  congr 1
  rw [enforce_limit_eq_of_gt _ _ (by decide)]
  show pySliceTakeLast _ (-1) = _
  rw [show ((⟨[], [], []⟩ : FS).index.filter
        (fun s => s.id != _safe (pyOr (some "a") (toString 1)))
      ++ [(⟨_safe (pyOr (some "a") (toString 1)),
           pyOr none (_safe (pyOr (some "a") (toString 1))), 1, 1⟩ : SessionRecord)])
    = [⟨_safe (pyOr (some "a") (toString 1)),
        pyOr none (_safe (pyOr (some "a") (toString 1))), 1, 1⟩] from rfl]
  rw [List.mergeSort_singleton]
  rfl

/-- C10 (amended): a falsy `maxSessions` (0, null, false, the empty string,
or an absent field) is replaced by the process-wide default cap, and a
Create whose effective bound is nonnegative never leaves the index empty
(bound 0 evicts nothing, since `sessions[:-0]` is the empty slice); a
negative value, however, is kept and can empty the index (see the
counterexample). -/
theorem effective_max_sessions_spec :
    (∀ v : JVal, v.truthy = false →
      effectiveMaxSessions (some v) = some MAX_SESSIONS_DEFAULT)
    ∧ effectiveMaxSessions none = some MAX_SESSIONS_DEFAULT
    ∧ (∀ (fs : FS) (idOpt nameOpt : Option String) (maxOpt : Option JVal)
        (tid now : Nat) (m : Int) (fs' : FS) (meta : SessionRecord),
        effectiveMaxSessions maxOpt = some m → 0 ≤ m →
        api_create_session fs idOpt nameOpt maxOpt tid now = some (fs', meta) →
        fs'.index ≠ []) := by
  refine ⟨?_, rfl, ?_⟩
  · intro v hv
    rw [effectiveMaxSessions, if_neg (by simp [hv])]
  · intro fs idOpt nameOpt maxOpt tid now m fs' meta hmax hm hc
    rw [api_create_session, hmax] at hc
    simp only [Option.some.injEq, Prod.mk.injEq] at hc
    rw [← hc.1]
    apply enforce_limit_keeps_nonempty _ _ hm
    simp

/-- C10 witness: a Create with the truthy positive bound 3 on an empty
store leaves a non-empty index. -/
theorem effective_max_sessions_spec_witness :
    ({ index := [⟨"a", "a", 1, 1⟩], dirExists := [], stateFiles := [] } : FS).index
      ≠ [] :=
  effective_max_sessions_spec.2.2 ⟨[], [], []⟩ (some "a") none
    (some (JVal.num 3)) 1 1 3 ⟨[⟨"a", "a", 1, 1⟩], [], []⟩ ⟨"a", "a", 1, 1⟩
    rfl (by decide) rfl

/-! ### C2: the eviction invariant over Create sequences -/

theorem sidOf_safe (q : String × Nat) : _safe (sidOf q) = sidOf q :=
  _safe_idem _

/-- One Create of the sequence, unfolded: upsert the fresh record, then run
eviction with the bound k. -/
theorem createStep_eq (k : Nat) (hk : 0 < k) (acc : FS) (p : String × Nat) :
    createStep k acc p =
      enforce_limit
        { acc with index := acc.index.filter (fun s => s.id != sidOf p) ++ [toRec p] }
        (k : Int) := by
  have hknz : (JVal.num (k : Int)).truthy = true := by
    show ((k : Int) != 0) = true
    simp only [bne_iff_ne, ne_eq]
    omega
  have hmax : effectiveMaxSessions (some (JVal.num (k : Int))) = some (k : Int) := by
    show (if (JVal.num (k : Int)).truthy then pyIntOf (JVal.num (k : Int))
          else some MAX_SESSIONS_DEFAULT) = some (k : Int)
    rw [if_pos hknz]
    rfl
  simp only [createStep, api_create_session, hmax]
  rfl

/-- The under-capacity branch of `enforce_limit`. -/
theorem enforce_limit_noop (fs : FS) (N : Int)
    (h : (fs.index.length : Int) ≤ N) : enforce_limit fs N = fs := by
  rw [enforce_limit, if_pos h]

/-- One eviction step at capacity: with a sorted index of length k+1
(k records plus one appended), eviction removes exactly the first record
and keeps the remaining k. -/
theorem enforce_limit_append_step (A : FS) (x : SessionRecord) (k : Nat)
    (hA : A.index.length = k) (hkpos : 0 < k)
    (hpw : (A.index ++ [x]).Pairwise (fun a b => lastUsedLe a b)) :
    enforce_limit { A with index := A.index ++ [x] } (k : Int) =
      { (A.index.take 1).foldl (fun acc u => removeSessionDir acc u.id)
          { A with index := A.index ++ [x] } with
        index := (A.index ++ [x]).drop 1 } := by
  have h1 : (A.index ++ [x]).length = k + 1 := by
    rw [List.length_append, hA]
    rfl
  have hnle : ¬ ((({ A with index := A.index ++ [x] } : FS).index.length : Int)
      ≤ (k : Int)) := by
    show ¬ (((A.index ++ [x]).length : Int) ≤ (k : Int))
    rw [h1]
    omega
  rw [enforce_limit_eq_of_gt _ _ hnle]
  rw [show ({ A with index := A.index ++ [x] } : FS).index.mergeSort lastUsedLe
      = A.index ++ [x] from List.mergeSort_of_sorted hpw]
  have hdrop : pySliceTakeLast (A.index ++ [x]) (k : Int) = (A.index ++ [x]).drop 1 := by
    rw [pySliceTakeLast, if_pos (by omega : (0 : Int) < (k : Int))]
    congr 1
    rw [h1]
    omega
  have htake : pySliceDropLast (A.index ++ [x]) (k : Int) = A.index.take 1 := by
    rw [pySliceDropLast, if_pos (by omega : (0 : Int) < (k : Int))]
    rw [h1]
    rw [show k + 1 - ((k : Int)).toNat = 1 from by omega]
    exact List.take_append_of_le_length (by rw [hA]; exact hkpos)
  rw [hdrop, htake]

/-- The invariant of a Create sequence with bound k, distinct sanitized ids
and nondecreasing call times: after the whole sequence the index holds
exactly the records of the last (at most k) Create calls, in call order,
and every earlier call's session directory is absent. -/
theorem runCreates_inv (k : Nat) (hk : 0 < k) (steps : List (String × Nat))
    (dirs0 : List String) (st0 : List (String × JVal))
    (hnd : (steps.map sidOf).Nodup)
    (hmono : (steps.map Prod.snd).Pairwise (fun a b => a ≤ b)) :
    (runCreates ⟨[], dirs0, st0⟩ k steps).index
        = (steps.map toRec).drop (steps.length - k)
    ∧ ∀ p ∈ steps.take (steps.length - k),
        sidOf p ∉ (runCreates ⟨[], dirs0, st0⟩ k steps).dirExists := by
  induction steps using List.reverseRecOn with
  | nil =>
    refine ⟨by simp [runCreates], ?_⟩
    intro p hp
    simp at hp
  | append_singleton pre p ih =>
    rw [List.map_append] at hnd
    have hndPre : (pre.map sidOf).Nodup := hnd.of_append_left
    have hfresh : ∀ q ∈ pre, sidOf q ≠ sidOf p := by
      intro q hq hcontra
      exact (List.disjoint_of_nodup_append hnd)
        (List.mem_map_of_mem sidOf hq) (by simp [hcontra])
    have hmonoAll := hmono
    rw [List.map_append, List.pairwise_append] at hmono
    obtain ⟨ihIdx, ihDirs⟩ := ih hndPre hmono.1
    have hrun : runCreates ⟨[], dirs0, st0⟩ k (pre ++ [p])
        = createStep k (runCreates ⟨[], dirs0, st0⟩ k pre) p := by
      simp only [runCreates, List.foldl_append, List.foldl_cons, List.foldl_nil]
    rw [createStep_eq k hk] at hrun
    have hmemA : ∀ s ∈ (runCreates ⟨[], dirs0, st0⟩ k pre).index,
        s.id ≠ sidOf p := by
      intro s hs
      rw [ihIdx] at hs
      obtain ⟨q, hq, rfl⟩ := List.mem_map.mp (List.mem_of_mem_drop hs)
      exact hfresh q hq
    have hfilter : (runCreates ⟨[], dirs0, st0⟩ k pre).index.filter
          (fun s => s.id != sidOf p)
        = (runCreates ⟨[], dirs0, st0⟩ k pre).index :=
      List.filter_eq_self.mpr (fun s hs => by simpa using hmemA s hs)
    rw [hfilter] at hrun
    have hidx1 : (runCreates ⟨[], dirs0, st0⟩ k pre).index ++ [toRec p]
        = ((pre ++ [p]).map toRec).drop (pre.length - k) := by
      rw [List.map_append, ihIdx,
        List.drop_append_of_le_length (by rw [List.length_map]; omega)]
      rfl
    have hpwM : ((pre ++ [p]).map toRec).Pairwise (fun a b => lastUsedLe a b) := by
      rw [List.pairwise_map]
      have h2 : (pre ++ [p]).Pairwise (fun a b => a.2 ≤ b.2) := by
        rw [← List.pairwise_map (f := Prod.snd)]
        exact hmonoAll
      exact h2.imp (fun h => by
        simp only [lastUsedLe, toRec, decide_eq_true_eq]
        exact h)
    by_cases hcase : pre.length < k
    · -- still under capacity: eviction is a no-op
      have hz : pre.length - k = 0 := by omega
      have hz1 : (pre ++ [p]).length - k = 0 := by
        rw [List.length_append, List.length_cons, List.length_nil]
        omega
      have hlen1' : ((runCreates ⟨[], dirs0, st0⟩ k pre).index ++ [toRec p]).length
          ≤ k := by
        rw [hidx1, List.length_drop, List.length_map, List.length_append,
          List.length_cons, List.length_nil]
        omega
      have hlen1 : ((({ runCreates ⟨[], dirs0, st0⟩ k pre with
            index := (runCreates ⟨[], dirs0, st0⟩ k pre).index ++ [toRec p] } : FS).index.length : Int))
          ≤ (k : Int) := by
        show (((runCreates ⟨[], dirs0, st0⟩ k pre).index ++ [toRec p]).length : Int)
          ≤ (k : Int)
        exact_mod_cast hlen1'
      rw [enforce_limit_noop _ _ hlen1] at hrun
      constructor
      · rw [hrun]
        show (runCreates ⟨[], dirs0, st0⟩ k pre).index ++ [toRec p] = _
        rw [hidx1, hz, hz1]
      · intro q hq
        rw [hz1, List.take_zero] at hq
        simp at hq
    · -- at capacity: the sorted index has k+1 records, the head is evicted
      have hAlen : (runCreates ⟨[], dirs0, st0⟩ k pre).index.length = k := by
        rw [ihIdx, List.length_drop, List.length_map]
        omega
      have hpw1 : ((runCreates ⟨[], dirs0, st0⟩ k pre).index ++ [toRec p]).Pairwise
          (fun a b => lastUsedLe a b) := by
        rw [hidx1]
        exact hpwM.sublist (List.drop_sublist _ _)
      rw [enforce_limit_append_step (runCreates ⟨[], dirs0, st0⟩ k pre) (toRec p)
        k hAlen hk hpw1] at hrun
      have harith : pre.length - k + 1 = (pre ++ [p]).length - k := by
        rw [List.length_append, List.length_cons, List.length_nil]
        omega
      constructor
      · rw [hrun]
        show ((runCreates ⟨[], dirs0, st0⟩ k pre).index ++ [toRec p]).drop 1 = _
        rw [hidx1, List.drop_drop, harith]
      · intro q hq
        rw [hrun]
        show sidOf q ∉ (((runCreates ⟨[], dirs0, st0⟩ k pre).index.take 1).foldl
            (fun acc u => removeSessionDir acc u.id)
            { runCreates ⟨[], dirs0, st0⟩ k pre with
              index := (runCreates ⟨[], dirs0, st0⟩ k pre).index ++ [toRec p] }).dirExists
        have hjq : q ∈ pre.take (pre.length - k + 1) := by
          rw [← harith] at hq
          rwa [List.take_append_of_le_length (by omega)] at hq
        have hmemM : toRec q ∈ ((pre.map toRec).take (pre.length - k))
            ++ (((pre.map toRec).drop (pre.length - k)).take 1) := by
          rw [← List.take_add, ← List.map_take]
          exact List.mem_map_of_mem toRec hjq
        rcases List.mem_append.mp hmemM with hmem1 | hmem2
        · rw [← List.map_take] at hmem1
          obtain ⟨q', hq', heq⟩ := List.mem_map.mp hmem1
          have hdq' : sidOf q' ∉ (runCreates ⟨[], dirs0, st0⟩ k pre).dirExists :=
            ihDirs q' hq'
          have hsq : sidOf q' = sidOf q := congrArg SessionRecord.id heq
          rw [hsq] at hdq'
          exact foldl_remove_preserves_dirs _ _ _ hdq'
        · have hmem2' : toRec q ∈ (runCreates ⟨[], dirs0, st0⟩ k pre).index.take 1 := by
            rw [ihIdx]
            exact hmem2
          have h3 := foldl_remove_removes_dirs
            ((runCreates ⟨[], dirs0, st0⟩ k pre).index.take 1)
            { runCreates ⟨[], dirs0, st0⟩ k pre with
              index := (runCreates ⟨[], dirs0, st0⟩ k pre).index ++ [toRec p] }
            (toRec q) hmem2'
          have hid : (toRec q).id = sidOf q := rfl
          rw [hid, sidOf_safe q] at h3
          exact h3

/-- C2: for every sequence of Create calls with distinct (sanitized) ids and
nondecreasing clock times, each passing `maxSessions = k` with
`0 < k < length`, the final index contains exactly the k records of the k
most recent Creates (those with the greatest `lastUsedAt` among all touched
sessions), and every evicted session's directory is absent. -/
theorem create_sequence_eviction (steps : List (String × Nat)) (k : Nat)
    (dirs0 : List String) (st0 : List (String × JVal))
    (hnd : (steps.map sidOf).Nodup)
    (hmono : (steps.map Prod.snd).Pairwise (fun a b => a ≤ b))
    (hk : 0 < k) (hkN : k < steps.length) :
    (runCreates ⟨[], dirs0, st0⟩ k steps).index.length = k
    ∧ (runCreates ⟨[], dirs0, st0⟩ k steps).index
        = (steps.map toRec).drop (steps.length - k)
    ∧ (∀ r ∈ (runCreates ⟨[], dirs0, st0⟩ k steps).index,
        ∀ q ∈ steps.take (steps.length - k), q.2 ≤ r.lastUsedAt)
    ∧ (∀ q ∈ steps.take (steps.length - k),
        sidOf q ∉ (runCreates ⟨[], dirs0, st0⟩ k steps).dirExists) := by
  obtain ⟨h1, h2⟩ := runCreates_inv k hk steps dirs0 st0 hnd hmono
  refine ⟨?_, h1, ?_, h2⟩
  · rw [h1, List.length_drop, List.length_map]
    omega
  · intro r hr q hq
    rw [h1] at hr
    have hpwM : (steps.map toRec).Pairwise
        (fun a b => a.lastUsedAt ≤ b.lastUsedAt) := by
      rw [List.pairwise_map]
      have h3 : steps.Pairwise (fun a b => a.2 ≤ b.2) := by
        rw [← List.pairwise_map (f := Prod.snd)]
        exact hmono
      exact h3.imp (fun h => h)
    have hsplit := hpwM
    rw [← List.take_append_drop (steps.length - k) (steps.map toRec),
      List.pairwise_append] at hsplit
    have hqM : toRec q ∈ (steps.map toRec).take (steps.length - k) := by
      rw [← List.map_take]
      exact List.mem_map_of_mem toRec hq
    exact hsplit.2.2 (toRec q) hqM r hr

/-- C2 witness: the spec's concrete scenario — Create("a") at t=1,
Create("b") at t=2, Create("c") at t=3 with maxSessions = 2 — leaves
exactly the records of "b" and "c". -/
theorem create_sequence_eviction_witness :
    (runCreates ⟨[], [], []⟩ 2 [("a", 1), ("b", 2), ("c", 3)]).index
      = ([("a", 1), ("b", 2), ("c", 3)].map toRec).drop 1 :=
  (create_sequence_eviction [("a", 1), ("b", 2), ("c", 3)] 2 [] []
    (by decide) (by decide) (by decide) (by decide)).2.1

end Lumina
